import Mathlib

/-!
Verification of the spreadsheet ingestion and column-mapping engine.

This file gives a shallow embedding of the engine's core:
the file validator, the cell sanitizer, the rate limiter, the
per-file processing pipeline of the service, the sheet extractor,
the row projector, the public service error boundary, and the
mapping state machine operations of the `useSpreadsheetMapper` hook.
JavaScript numbers that are used as byte counts, timestamps and row
indices are modelled as `Nat`; spreadsheet cell values are modelled by
an explicit sum type; the browser `File` object is modelled by the three
fields the engine reads (`name`, `size`, `type`).
-/

/-- A spreadsheet cell value: `string | number | boolean | null`.
Numbers are modelled as integers (the engine never does arithmetic on
cell values, it only tests `typeof value === 'string'`). -/
inductive CellValue where
  | str (s : String)
  | num (n : Int)
  | boolean (b : Bool)
  | null
deriving DecidableEq

/-- The part of a browser `File` object the engine reads: `name`,
`size` (bytes) and `type` (MIME type, empty string when absent). -/
structure FileModel where
  name : String
  size : Nat
  type : String
deriving DecidableEq

/-- The fully-resolved security configuration (`Required<SecurityConfig>`). -/
structure RequiredSecurityConfig where
  maxFileSize : Nat
  allowedExtensions : List String
  allowedMimeTypes : List String
  sanitizeData : Bool
  maxFilesPerWindow : Nat
  rateLimitWindow : Nat
deriving DecidableEq

/-- The module-level `DEFAULT_SECURITY_CONFIG` constant. -/
def defaultSecurityConfig : RequiredSecurityConfig :=
  { maxFileSize := 50 * 1024 * 1024
    allowedExtensions := [".xlsx", ".xls", ".csv"]
    allowedMimeTypes :=
      ["application/vnd.openxmlformats-officedocument.spreadsheetml.sheet",
       "application/vnd.ms-excel",
       "text/csv",
       "application/csv"]
    sanitizeData := true
    maxFilesPerWindow := 10
    rateLimitWindow := 60000 }

/-- The caller-supplied `SecurityConfig`, all fields optional. -/
structure SecurityConfigOpt where
  maxFileSize : Option Nat := none
  allowedExtensions : Option (List String) := none
  allowedMimeTypes : Option (List String) := none
  sanitizeData : Option Bool := none
  maxFilesPerWindow : Option Nat := none
  rateLimitWindow : Option Nat := none
deriving DecidableEq

/-- The merge `{ ...DEFAULT_SECURITY_CONFIG, ...config.security }`:
every field the caller supplied overrides the default. -/
def mergeSecurity (opt : SecurityConfigOpt) : RequiredSecurityConfig :=
  { maxFileSize := opt.maxFileSize.getD defaultSecurityConfig.maxFileSize
    allowedExtensions := opt.allowedExtensions.getD defaultSecurityConfig.allowedExtensions
    allowedMimeTypes := opt.allowedMimeTypes.getD defaultSecurityConfig.allowedMimeTypes
    sanitizeData := opt.sanitizeData.getD defaultSecurityConfig.sanitizeData
    maxFilesPerWindow := opt.maxFilesPerWindow.getD defaultSecurityConfig.maxFilesPerWindow
    rateLimitWindow := opt.rateLimitWindow.getD defaultSecurityConfig.rateLimitWindow }

/-- Lower-cases the characters of a string, modelling
`file.name.toLowerCase()`. -/
def lowerChars (s : String) : List Char := s.data.map Char.toLower

/-- The suffix of a character list starting at its last dot, modelling
`name.substring(name.lastIndexOf('.'))`; when there is no dot,
`lastIndexOf` returns `-1` and `substring(-1)` yields the whole string. -/
def suffixFromLastDot (cs : List Char) : List Char :=
  let r := cs.reverse
  match r.findIdx? (fun c => c = '.') with
  | none => cs
  | some i => '.' :: (r.take i).reverse

/-- The extension the validator computes:
`file.name.toLowerCase().substring(file.name.toLowerCase().lastIndexOf('.'))`
(the source lower-cases first, then takes the suffix from the last dot). -/
def fileExtensionOf (name : String) : String :=
  String.mk (suffixFromLastDot (lowerChars name))

/-- Two-digit rendering of a number below 100, used by `formatMB`. -/
def padTwo (n : Nat) : String :=
  if n < 10 then "0" ++ toString n else toString n

/-- Models `(bytes / 1024 / 1024).toFixed(2)`: megabytes with two decimal
digits, rounding to the nearest hundredth. -/
def formatMB (bytes : Nat) : String :=
  let hundredths := (bytes * 100 + 524288) / 1048576
  toString (hundredths / 100) ++ "." ++ padTwo (hundredths % 100)

/-- The size error message pushed by `validateFile`. -/
def sizeErrorMessage (file : FileModel) (securityConfig : RequiredSecurityConfig) : String :=
  "File size (" ++ formatMB file.size ++ "MB) exceeds maximum allowed size (" ++
    formatMB securityConfig.maxFileSize ++ "MB)"

/-- The large-file warning pushed by `validateFile` above the fixed 10 MB
threshold. -/
def largeFileWarning (file : FileModel) : String :=
  "Large file detected (" ++ formatMB file.size ++
    "MB). Processing may take longer than usual."

/-- The extension error message pushed by `validateFile`. -/
def extensionErrorMessage (ext : String) (securityConfig : RequiredSecurityConfig) : String :=
  "File extension '" ++ ext ++ "' is not allowed. Allowed extensions: " ++
    String.intercalate ", " securityConfig.allowedExtensions

/-- The MIME type error message pushed by `validateFile`. -/
def mimeErrorMessage (mime : String) : String :=
  "File MIME type '" ++ mime ++ "' is not allowed"

/-- The `FileValidationResult` returned by `validateFile`. -/
structure FileValidationResult where
  isValid : Bool
  errors : List String
  warnings : List String
  fileSize : Nat
  mimeType : String
  extension : String
deriving DecidableEq

/-- The `validateFile` function: checks the size bound, the large-file
warning threshold, the extension allow-list and (when a MIME type is
present) the MIME allow-list, in source order, and reports
`isValid = (errors.length === 0)`. -/
def validateFile (file : FileModel) (securityConfig : RequiredSecurityConfig) :
    FileValidationResult :=
  let ext := fileExtensionOf file.name
  let errors :=
    (if securityConfig.maxFileSize < file.size
      then [sizeErrorMessage file securityConfig] else []) ++
    (if securityConfig.allowedExtensions.contains ext
      then [] else [extensionErrorMessage ext securityConfig]) ++
    (if file.type ≠ "" ∧ ¬ securityConfig.allowedMimeTypes.contains file.type
      then [mimeErrorMessage file.type] else [])
  let warnings :=
    if 10 * 1024 * 1024 < file.size then [largeFileWarning file] else []
  { isValid := errors.isEmpty
    errors := errors
    warnings := warnings
    fileSize := file.size
    mimeType := file.type
    extension := ext }

/-- Case-insensitive character equality, modelling the `i` flag of the
sanitizer's regular expressions. -/
def lowerEq (a b : Char) : Bool := a.toLower == b.toLower

/-- Does the second list start with the first, case-insensitively? -/
def headMatchCI : List Char → List Char → Bool
  | [], _ => true
  | _ :: _, [] => false
  | p :: ps, c :: cs => lowerEq p c && headMatchCI ps cs

/-- A regex word character (`\w`): ASCII letter, digit or underscore. -/
def isWordChar (c : Char) : Bool := c.isAlphanum || c == '_'

/-- A whitespace character as matched by `\s` and removed by
`String.prototype.trim` (space, tab, newline, carriage return,
vertical tab, form feed). -/
def isJsWhitespace (c : Char) : Bool :=
  c == ' ' || c == '\t' || c == '\n' || c == '\r' ||
    c == Char.ofNat 11 || c == Char.ofNat 12

/-- Models `String.prototype.trim`: strips whitespace from both ends. -/
def jsTrim (cs : List Char) : List Char :=
  ((cs.dropWhile isJsWhitespace).reverse.dropWhile isJsWhitespace).reverse

/-- The opening literal of the script-block pattern. -/
def scriptOpenPat : List Char := "<script".data

/-- The closing literal of the script-block pattern. -/
def scriptClosePat : List Char := "</script>".data

/-- The literal of the `javascript:` pattern. -/
def jsUriPat : List Char := "javascript:".data

/-- Word-boundary test after `<script`: the `\b` in the pattern holds
exactly when the next character is not a word character (or the input
ends). -/
def wordBoundaryOk : List Char → Bool
  | [] => true
  | c :: _ => !(isWordChar c)

/-- The remainder of the input after the first case-insensitive
occurrence of `</script>`, or `none` when there is none: the
script-block regex consumes everything up to its first closing tag. -/
def findCloseTag : List Char → Option (List Char)
  | [] => none
  | c :: rest =>
    if headMatchCI scriptClosePat (c :: rest) then
      some ((c :: rest).drop scriptClosePat.length)
    else findCloseTag rest

/-- Global replacement of `<script\b[^<]*(?:(?!<\/script>)<[^<]*)*<\/script>`
by the empty string: at a case-insensitive `<script` followed by a word
boundary, the match extends through the first subsequent case-insensitive
`</script>`; without a closing tag there is no match at this position.
The fuel argument only bounds the recursion; every recursive call strictly
shortens the input, so fuel equal to the input length never runs out. -/
def stripScriptsGo : Nat → List Char → List Char
  | 0, cs => cs
  | _ + 1, [] => []
  | fuel + 1, c :: rest =>
    if headMatchCI scriptOpenPat (c :: rest) &&
        wordBoundaryOk ((c :: rest).drop scriptOpenPat.length) then
      match findCloseTag ((c :: rest).drop scriptOpenPat.length) with
      | some rem => stripScriptsGo fuel rem
      | none => c :: stripScriptsGo fuel rest
    else c :: stripScriptsGo fuel rest

/-- The first replacement of the sanitizer: script blocks removed. -/
def stripScripts (cs : List Char) : List Char := stripScriptsGo cs.length cs

/-- The remainder of the input after the next `>`, or `none`. -/
def afterNextGt : List Char → Option (List Char)
  | [] => none
  | c :: rest => if c == '>' then some rest else afterNextGt rest

/-- Global replacement of `<[^>]*>` by the empty string: a `<` with a
later `>` is removed through the first such `>`; a `<` with no later `>`
matches nothing and stays. Fuel as in `stripScriptsGo`. -/
def stripTagsGo : Nat → List Char → List Char
  | 0, cs => cs
  | _ + 1, [] => []
  | fuel + 1, c :: rest =>
    if c == '<' then
      match afterNextGt rest with
      | some rem => stripTagsGo fuel rem
      | none => c :: stripTagsGo fuel rest
    else c :: stripTagsGo fuel rest

/-- The second replacement of the sanitizer: remaining tags removed. -/
def stripTags (cs : List Char) : List Char := stripTagsGo cs.length cs

/-- Global case-insensitive replacement of the literal `javascript:` by
the empty string. Fuel as in `stripScriptsGo`. -/
def stripJsUriGo : Nat → List Char → List Char
  | 0, cs => cs
  | _ + 1, [] => []
  | fuel + 1, c :: rest =>
    if headMatchCI jsUriPat (c :: rest) then
      stripJsUriGo fuel ((c :: rest).drop jsUriPat.length)
    else c :: stripJsUriGo fuel rest

/-- The third replacement of the sanitizer: `javascript:` URIs removed. -/
def stripJsUri (cs : List Char) : List Char := stripJsUriGo cs.length cs

/-- A match of `on\w+\s*=` starting at the head of the input: `on`
(case-insensitive), at least one word character, optional whitespace,
then `=`; returns the remainder after the match. Greedy `\w+` and `\s*`
with this pattern admit no useful backtracking, so maximal munch is
exact. -/
def handlerMatchRem (cs : List Char) : Option (List Char) :=
  match cs with
  | c1 :: c2 :: rest =>
    if lowerEq 'o' c1 && lowerEq 'n' c2 then
      if (rest.takeWhile isWordChar).isEmpty then none
      else
        match (rest.dropWhile isWordChar).dropWhile isJsWhitespace with
        | '=' :: rem => some rem
        | _ => none
    else none
  | _ => none

/-- Global replacement of `on\w+\s*=` by the empty string.
Fuel as in `stripScriptsGo`. -/
def stripHandlersGo : Nat → List Char → List Char
  | 0, cs => cs
  | _ + 1, [] => []
  | fuel + 1, c :: rest =>
    match handlerMatchRem (c :: rest) with
    | some rem => stripHandlersGo fuel rem
    | none => c :: stripHandlersGo fuel rest

/-- The fourth replacement of the sanitizer: inline event-handler
attribute patterns removed. -/
def stripHandlers (cs : List Char) : List Char := stripHandlersGo cs.length cs

/-- The string branch of `sanitizeCellValue`: the four replacements in
source order, then `trim`. -/
def sanitizeString (s : String) : String :=
  String.mk (jsTrim (stripHandlers (stripJsUri (stripTags (stripScripts s.data)))))

/-- The `sanitizeCellValue` function: strings are passed through the
XSS-hardening pipeline and trimmed; every other value is returned
unchanged. -/
def sanitizeCellValue : CellValue → CellValue
  | CellValue.str s => CellValue.str (sanitizeString s)
  | v => v

/-- The per-client `RateLimitState` record. -/
structure RateLimitState where
  fileCount : Nat
  windowStart : Nat
deriving DecidableEq

/-- The module-level `rateLimitState: Map<string, RateLimitState>`,
modelled as an association list in insertion order. -/
abbrev RateLimitTable := List (String × RateLimitState)

/-- Models `Map.set` (and JS object assignment) semantics on an association
list: an existing key keeps its position and gets the new value, a new
key is appended. -/
def setEntry {β : Type} (l : List (String × β)) (k : String) (v : β) : List (String × β) :=
  match l with
  | [] => [(k, v)]
  | (k0, v0) :: rest => if k0 = k then (k0, v) :: rest else (k0, v0) :: setEntry rest k v

/-- The `checkRateLimit` function. `now` is `Date.now()`; the returned
table is the content of the module-level map after the call. The source
mutates the object it got from the map in place when the window has
expired, so an expired window updates the stored entry even on the
deny path (`table1`); on the allow path the incremented state is
written back with `Map.set`. -/
def checkRateLimit (clientId : String) (securityConfig : RequiredSecurityConfig)
    (now : Nat) (table : RateLimitTable) : Bool × RateLimitTable :=
  let stored := table.lookup clientId
  let state0 := stored.getD { fileCount := 0, windowStart := now }
  let state1 :=
    if securityConfig.rateLimitWindow < now - state0.windowStart then
      { fileCount := 0, windowStart := now }
    else state0
  let table1 :=
    if securityConfig.rateLimitWindow < now - state0.windowStart ∧ stored.isSome = true then
      setEntry table clientId state1
    else table
  if securityConfig.maxFilesPerWindow ≤ state1.fileCount then
    (false, table1)
  else
    (true, setEntry table clientId
      { fileCount := state1.fileCount + 1, windowStart := state1.windowStart })

/-- A sequence of `checkRateLimit` calls for one client at the given
times, threading the shared table through. -/
def runRequests (clientId : String) (securityConfig : RequiredSecurityConfig) :
    List Nat → RateLimitTable → List Bool × RateLimitTable
  | [], table => ([], table)
  | t :: ts, table =>
    let step := checkRateLimit clientId securityConfig t table
    let rest := runRequests clientId securityConfig ts step.2
    (step.1 :: rest.1, rest.2)

/-- The rate-limit error thrown by `processSpreadsheetAsync`. -/
def rateLimitErrorMessage : String :=
  "Rate limit exceeded. Please wait before processing more files."

/-- The aggregated validation error thrown by `processSpreadsheetAsync`:
`File validation failed: ${validation.errors.join(', ')}`. -/
def validationFailedMessage (validation : FileValidationResult) : String :=
  "File validation failed: " ++ String.intercalate ", " validation.errors

/-- The head of `processSpreadsheetAsync` (its lines up to the warning
log): merge the security config, run the rate-limit check, then run
file validation, in that source order. `Except.ok ()` means the
pipeline proceeds to the throttle/read/extract stages; the second
component is the rate-limit table after the call. -/
def processFileGate (file : FileModel) (security : SecurityConfigOpt) (clientId : String)
    (now : Nat) (table : RateLimitTable) : Except String Unit × RateLimitTable :=
  let securityConfig := mergeSecurity security
  let rl := checkRateLimit clientId securityConfig now table
  if rl.1 = false then (Except.error rateLimitErrorMessage, rl.2)
  else
    let validation := validateFile file securityConfig
    if validation.isValid = false then
      (Except.error (validationFailedMessage validation), rl.2)
    else (Except.ok (), rl.2)

/-- The `PerformanceMetrics` record. -/
structure PerformanceMetricsModel where
  fileSize : Nat
  processingTime : Nat
  rowCount : Nat
  memoryUsage : Option Nat := none
deriving DecidableEq

/-- One row of the projected output: a JS object keyed by column name,
modelled as an association list in insertion order. -/
abbrev RowObject := List (String × CellValue)

/-- The `SpreadsheetData` result of one processed file. -/
structure SpreadsheetDataModel where
  name : String
  columns : List String
  data : List RowObject
  metrics : Option PerformanceMetricsModel := none
deriving DecidableEq

/-- A value a pipeline promise can reject with: an `Error` instance
carrying a message (every `throw new Error(...)` in the pipeline), or a
non-`Error` value such as the `ProgressEvent` that `reader.onerror`
passes to `reject` in both read paths. -/
inductive RejectionValue where
  | errorInstance (message : String)
  | nonError
deriving DecidableEq

/-- The production-mode message of the public error boundary for
rejections that are `Error` instances. -/
def secureErrorMessage : String :=
  "File processing failed. Please check the file format and try again."

/-- The production-mode message of the public error boundary for
rejections that are not `Error` instances. -/
def unexpectedErrorMessage : String :=
  "An unexpected error occurred during file processing."

/-- The catch-clause of `SpreadSheetService`, the public `process()`
boundary: the pipeline outcome is passed through in test mode; in
production mode a failure is replaced by a fresh `Error` whose message
is chosen by the `error instanceof Error` test — the secure message for
`Error` rejections, the unexpected-error message otherwise. -/
def spreadSheetServiceWrap (isTestMode : Bool)
    (result : Except RejectionValue SpreadsheetDataModel) :
    Except RejectionValue SpreadsheetDataModel :=
  match result with
  | Except.ok d => Except.ok d
  | Except.error e =>
    if isTestMode then Except.error e
    else
      Except.error (RejectionValue.errorInstance
        (match e with
         | RejectionValue.errorInstance _ => secureErrorMessage
         | RejectionValue.nonError => unexpectedErrorMessage))

deriving instance DecidableEq for Except

/-- The `sheet` configuration field: a numeric index or a sheet name. -/
inductive SheetSelector where
  | index (n : Nat)
  | name (s : String)
deriving DecidableEq

/-- A sheet as `XLSX.utils.sheet_to_json(sheet, { header: 1, defval: '' })`
returns it: a row-major matrix of cell values. -/
abbrev SheetMatrix := List (List CellValue)

/-- A parsed workbook: the sheets in `SheetNames` order, each with its
name. `workbook.Sheets[name]` is modelled by association-list lookup. -/
structure Workbook where
  sheets : List (String × SheetMatrix)
deriving DecidableEq

/-- The `workbook.SheetNames` list. -/
def sheetNames (wb : Workbook) : List String := wb.sheets.map Prod.fst

/-- JS `String(value)` on a cell value, used to build column names from
the header row. -/
def cellToString : CellValue → String
  | CellValue.str s => s
  | CellValue.num n => toString n
  | CellValue.boolean b => if b then "true" else "false"
  | CellValue.null => "null"

/-- The synthesized column name `String.fromCharCode(65 + i)` of the
`omitHeader` branch. -/
def syntheticColumn (i : Nat) : String := String.mk [Char.ofNat (65 + i)]

/-- The `columns`/`rows` pair the extraction stage produces. -/
structure ExtractResult where
  columns : List String
  rows : SheetMatrix
deriving DecidableEq

/-- The sheet-resolution step of `processSpreadsheetAsync`: a numeric
selector must be below the sheet count (then the name at that index is
taken, guarded by the source's falsy check, which fires on an empty
name); a name selector must occur in `SheetNames`. -/
def resolveSheet (wb : Workbook) (sel : SheetSelector) : Except String String :=
  match sel with
  | SheetSelector.index n =>
    if (sheetNames wb).length ≤ n then Except.error "Invalid sheet selection"
    else
      let foundSheetName := (sheetNames wb).getD n ""
      if foundSheetName = "" then Except.error "Sheet not found"
      else Except.ok foundSheetName
  | SheetSelector.name s =>
    if (sheetNames wb).contains s then Except.ok s
    else Except.error "Named sheet not found"

/-- The `dataStartRow ? dataStartRow - 1 : fallback` computation: a JS
falsy test, so an absent or zero `dataStartRow` takes the fallback. -/
def dataStartIndexOf (dataStartRow : Option Nat) (fallback : Nat) (len : Nat) : Nat :=
  min (match dataStartRow with
       | some d => if d ≠ 0 then d - 1 else fallback
       | none => fallback) len

/-- The sheet-extraction stage of `processSpreadsheetAsync` (sheet
resolution through the computation of `columns` and `rows`), mirroring
the source's checks in order. In the headered branch the source first
rejects an empty matrix, then a `headerRow` beyond the matrix length,
clamps the header index, and re-checks that the header row exists. -/
def extractSheet (wb : Workbook) (sel : SheetSelector) (omitHeader : Bool)
    (headerRow : Nat) (dataStartRow : Option Nat) : Except String ExtractResult :=
  match resolveSheet wb sel with
  | Except.error e => Except.error e
  | Except.ok sheetName =>
    match wb.sheets.lookup sheetName with
    | none => Except.error "Sheet data not accessible"
    | some json =>
      if omitHeader then
        let firstRow := json.headD []
        let columns := (List.range (min firstRow.length 100)).map syntheticColumn
        Except.ok { columns := columns
                    rows := json.drop (dataStartIndexOf dataStartRow 0 json.length) }
      else
        if json.length = 0 then Except.error "Header data not available"
        else if json.length < headerRow then Except.error "Header row is out of bounds"
        else
          let headerIndex := min (headerRow - 1) (json.length - 1)
          match json.get? headerIndex with
          | none => Except.error "Header data not available"
          | some headerCells =>
            Except.ok { columns := (headerCells.take 100).map cellToString
                        rows := json.drop
                          (dataStartIndexOf dataStartRow (headerIndex + 1) json.length) }

/-- Is an `Except` a success? -/
def exceptOk {ε α : Type} : Except ε α → Bool
  | Except.ok _ => true
  | Except.error _ => false

/-- The cell read `row[i]` with the source's
`undefined || null → ''` normalization. -/
def cellOrEmpty (row : List CellValue) (i : Nat) : CellValue :=
  match row.get? i with
  | none => CellValue.str ""
  | some CellValue.null => CellValue.str ""
  | some v => v

/-- One row of the projection: the `reduce` over `columns` that builds
the row object, assigning the (optionally sanitized) cell at each
column's position. -/
def projectRow (sanitize : Bool) (columns : List String) (row : List CellValue) : RowObject :=
  columns.enum.foldl
    (fun acc ic =>
      setEntry acc ic.2
        (if sanitize then sanitizeCellValue (cellOrEmpty row ic.1) else cellOrEmpty row ic.1))
    []

/-- The projection stage: truncate to the first `previewCount` rows,
then build one row object per row. -/
def projectRows (sanitize : Bool) (columns : List String) (previewCount : Nat)
    (rows : SheetMatrix) : List RowObject :=
  (rows.take previewCount).map (projectRow sanitize columns)

/-- A target-field descriptor supplied by the caller. -/
structure MappingOption where
  label : String
  value : String
  required : Bool := false
deriving DecidableEq

/-- One user-chosen association between a source column (`field`) and a
target option (`value`). An absent `fileName` means the mapping applies
regardless of file (single-file backward compatibility); the optional
`saved` flag is modelled as a `Bool` because the hook only ever tests
its truthiness. -/
structure MappedField where
  field : String
  value : String
  saved : Bool := false
  fileName : Option String := none
deriving DecidableEq

/-- The error categories of `MappingError.type`. -/
inductive MappingErrorType where
  | validation
  | security
  | performance
  | accessibility
deriving DecidableEq

/-- A mapping validation error. -/
structure MappingError where
  option : MappingOption
  message : String
  type : MappingErrorType
deriving DecidableEq

/-- The JS falsy test `!fileName` on an optional string field: true for
an absent field and for the empty string (both are falsy in JS). -/
def falsyFileName : Option String → Bool
  | none => true
  | some s => s == ""

/-- The match predicate shared by `updateOrCreate` and `save`:
`item.value === value && (!fileName || !item.fileName || item.fileName === fileName)`.
A record with a falsy `fileName` (absent or empty), or an item with
one, matches on value alone (backward compatibility). -/
def mappingMatches (value : String) (fileName : Option String) (item : MappedField) : Bool :=
  item.value == value &&
    (falsyFileName fileName || falsyFileName item.fileName || item.fileName == fileName)

/-- The `updateOrCreate` operation on the `map` state: find the first
matching entry; replace it in place when found, append otherwise. -/
def updateOrCreate (record : MappedField) (map : List MappedField) : List MappedField :=
  match map.findIdx? (mappingMatches record.value record.fileName) with
  | none => map ++ [record]
  | some i => map.set i record

/-- A sequence of `updateOrCreate` calls starting from the empty map. -/
def applyUpdates (records : List MappedField) : List MappedField :=
  records.foldl (fun m r => updateOrCreate r m) []

/-- The `(value, fileName)` key of a mapped field. -/
def mappingKey (m : MappedField) : String × Option String := (m.value, m.fileName)

/-- The validation pass of `finish()`: one error per `required` option
that has no mapping with its `value`; `saved` and `fileName` are not
consulted, and `finish` never invokes `onFinish`. -/
def finishErrors (options : List MappingOption) (map : List MappedField) : List MappingError :=
  options.filterMap (fun option =>
    if option.required ∧ (map.find? (fun item => item.value == option.value)).isNone then
      some { option := option
             message := option.label ++ " is required"
             type := MappingErrorType.validation }
    else none)

/-- The scoped lookup of `handleFileFinish`: the first mapping whose
`value` matches and whose `fileName` is falsy (absent or empty) or
equals the file's name. -/
def scopedFind (map : List MappedField) (dataName : String) (value : String) :
    Option MappedField :=
  map.find? (fun item =>
    item.value == value && (falsyFileName item.fileName || item.fileName == some dataName))

/-- The validation pass of `handleFileFinish`: one error per `required`
option whose scoped mapping is missing or unsaved. -/
def fileFinishErrors (options : List MappingOption) (map : List MappedField)
    (dataName : String) : List MappingError :=
  options.filterMap (fun option =>
    if option.required then
      match scopedFind map dataName option.value with
      | none => some { option := option
                       message := option.label ++ " is required and must be saved"
                       type := MappingErrorType.validation }
      | some mappedField =>
        if mappedField.saved then none
        else some { option := option
                    message := option.label ++ " is required and must be saved"
                    type := MappingErrorType.validation }
    else none)

/-- The result list `handleFileFinish` passes to `onFinish`: the
`{field, value}` pairs of the mappings scoped to the file (a falsy
`fileName` — absent or empty — is included for every file). -/
def scopedPairs (map : List MappedField) (dataName : String) : List (String × String) :=
  (map.filter (fun item => falsyFileName item.fileName || item.fileName == some dataName)).map
    (fun item => (item.field, item.value))

/-- Whether a required option is satisfied in `handleFileFinish`: the
first scoped mapping for its value exists and is saved. -/
def requiredSatisfied (map : List MappedField) (dataName : String) (o : MappingOption) : Bool :=
  match scopedFind map dataName o.value with
  | none => false
  | some item => item.saved

/-- The `handleFileFinish` operation: on validation errors it stores
them and returns without calling `onFinish` (`Except.error`); otherwise
it invokes `onFinish` with the scoped pairs (`Except.ok`). -/
def handleFileFinish (options : List MappingOption) (map : List MappedField)
    (dataName : String) : Except (List MappingError) (List (String × String)) :=
  let validationErrors := fileFinishErrors options map dataName
  if validationErrors.isEmpty then Except.ok (scopedPairs map dataName)
  else Except.error validationErrors

/-- The per-file lifecycle status. -/
inductive FileStatus where
  | pending
  | processing
  | completed
  | error
deriving DecidableEq

/-- The `FileProcessingState` record of the hook. -/
structure FileProcessingState where
  file : FileModel
  status : FileStatus
  error : Option String := none
  data : Option SpreadsheetDataModel := none
deriving DecidableEq

/-- The hook state touched by `handleFiles`. -/
structure HookState where
  map : List MappedField
  errors : List MappingError
  processedFiles : List SpreadsheetDataModel
  fileProcessingStates : List FileProcessingState
  isProcessing : Bool
  performanceMetrics : List PerformanceMetricsModel
deriving DecidableEq

/-- The synchronous part of `handleFiles` (through the initialization
of the per-file states, before the async queue starts): an empty batch
returns immediately; otherwise the per-batch state is reset and one
pending `FileProcessingState` is created per file. -/
def handleFiles (files : List FileModel) (s : HookState) : HookState :=
  if files.length = 0 then s
  else
    { s with
      processedFiles := []
      errors := []
      performanceMetrics := []
      isProcessing := true
      fileProcessingStates := files.map (fun f => { file := f, status := FileStatus.pending }) }

/-!
Theorems. Each claim of the specification review is settled by one
theorem below (with a witness when it has hypotheses, and a
counterexample when the claim as stated fails on the code).
-/

/-- C7: for every file and security config, `validateFile` is total
(never throws), `isValid` is true iff `errors` is empty, a file larger
than `maxFileSize` gets the size error (hence is invalid), a file over
the fixed 10 MB threshold gets the large-file warning, a file within
`maxFileSize` gets no size error (its errors are exactly the
extension/MIME ones), and warnings never affect validity. -/
theorem validateFile_spec (file : FileModel) (securityConfig : RequiredSecurityConfig) :
    ((validateFile file securityConfig).isValid = true ↔
      (validateFile file securityConfig).errors = []) ∧
    (securityConfig.maxFileSize < file.size →
      sizeErrorMessage file securityConfig ∈ (validateFile file securityConfig).errors ∧
      (validateFile file securityConfig).isValid = false) ∧
    (10 * 1024 * 1024 < file.size →
      (validateFile file securityConfig).warnings = [largeFileWarning file]) ∧
    (file.size ≤ securityConfig.maxFileSize →
      (validateFile file securityConfig).errors =
        (if securityConfig.allowedExtensions.contains (fileExtensionOf file.name)
          then [] else [extensionErrorMessage (fileExtensionOf file.name) securityConfig]) ++
        (if file.type ≠ "" ∧ ¬ securityConfig.allowedMimeTypes.contains file.type
          then [mimeErrorMessage file.type] else [])) := by
  refine ⟨?_, ?_, ?_, ?_⟩
  · simp [validateFile, List.isEmpty_iff]
  · intro h
    constructor
    · simp [validateFile, if_pos h]
    · simp [validateFile, if_pos h, List.isEmpty_iff]
  · intro h
    simp [validateFile, if_pos h]
  · intro h
    have h2 : ¬ securityConfig.maxFileSize < file.size := Nat.not_lt.mpr h
    simp [validateFile, if_neg h2]

/-- Witness for `validateFile_spec` at a 60 MB CSV file under the
default configuration. -/
theorem validateFile_spec_witness :
    sizeErrorMessage { name := "big.csv", size := 62914560, type := "text/csv" }
        defaultSecurityConfig ∈
      (validateFile { name := "big.csv", size := 62914560, type := "text/csv" }
        defaultSecurityConfig).errors ∧
    (validateFile { name := "big.csv", size := 62914560, type := "text/csv" }
      defaultSecurityConfig).isValid = false :=
  (validateFile_spec { name := "big.csv", size := 62914560, type := "text/csv" }
    defaultSecurityConfig).2.1 (by decide)

/-- A string with no `<` character is untouched by script-block removal. -/
theorem stripScriptsGo_no_lt : ∀ (fuel : Nat) (cs : List Char),
    (∀ c ∈ cs, lowerEq '<' c = false) → stripScriptsGo fuel cs = cs := by
  intro fuel
  induction fuel with
  | zero => intro cs _; rfl
  | succ fuel ih =>
    intro cs h
    cases cs with
    | nil => rfl
    | cons c rest =>
      have hc : lowerEq '<' c = false := h c (List.mem_cons_self c rest)
      have hp : scriptOpenPat = '<' :: "script".data := by decide
      have hmatch : headMatchCI scriptOpenPat (c :: rest) = false := by
        rw [hp]; simp [headMatchCI, hc]
      simp only [stripScriptsGo, hmatch, Bool.false_and, if_neg Bool.false_ne_true,
        List.cons.injEq, true_and]
      exact ih rest (fun x hx => h x (List.mem_cons_of_mem c hx))

/-- A string with no `<` character is untouched by tag removal. -/
theorem stripTagsGo_no_lt : ∀ (fuel : Nat) (cs : List Char),
    (∀ c ∈ cs, (c == '<') = false) → stripTagsGo fuel cs = cs := by
  intro fuel
  induction fuel with
  | zero => intro cs _; rfl
  | succ fuel ih =>
    intro cs h
    cases cs with
    | nil => rfl
    | cons c rest =>
      have hc : (c == '<') = false := h c (List.mem_cons_self c rest)
      simp only [stripTagsGo, hc, if_neg Bool.false_ne_true, List.cons.injEq, true_and]
      exact ih rest (fun x hx => h x (List.mem_cons_of_mem c hx))

/-- A string in which no character case-folds to `j` is untouched by
`javascript:` removal. -/
theorem stripJsUriGo_no_j : ∀ (fuel : Nat) (cs : List Char),
    (∀ c ∈ cs, lowerEq 'j' c = false) → stripJsUriGo fuel cs = cs := by
  intro fuel
  induction fuel with
  | zero => intro cs _; rfl
  | succ fuel ih =>
    intro cs h
    cases cs with
    | nil => rfl
    | cons c rest =>
      have hc : lowerEq 'j' c = false := h c (List.mem_cons_self c rest)
      have hp : jsUriPat = 'j' :: "avascript:".data := by decide
      have hmatch : headMatchCI jsUriPat (c :: rest) = false := by
        rw [hp]; simp [headMatchCI, hc]
      simp only [stripJsUriGo, hmatch, if_neg Bool.false_ne_true, List.cons.injEq, true_and]
      exact ih rest (fun x hx => h x (List.mem_cons_of_mem c hx))

/-- A string in which no character case-folds to `o` is untouched by
event-handler-pattern removal. -/
theorem stripHandlersGo_no_o : ∀ (fuel : Nat) (cs : List Char),
    (∀ c ∈ cs, lowerEq 'o' c = false) → stripHandlersGo fuel cs = cs := by
  intro fuel
  induction fuel with
  | zero => intro cs _; rfl
  | succ fuel ih =>
    intro cs h
    cases cs with
    | nil => rfl
    | cons c rest =>
      have hc : lowerEq 'o' c = false := h c (List.mem_cons_self c rest)
      have hm : handlerMatchRem (c :: rest) = none := by
        cases rest with
        | nil => rfl
        | cons c2 rest2 => simp [handlerMatchRem, hc]
      simp only [stripHandlersGo, hm, List.cons.injEq, true_and]
      exact ih rest (fun x hx => h x (List.mem_cons_of_mem c hx))

/-- Whitespace characters trigger none of the sanitizer's patterns. -/
theorem ws_char_never (c : Char) (h : isJsWhitespace c = true) :
    lowerEq '<' c = false ∧ (c == '<') = false ∧ lowerEq 'j' c = false ∧
      lowerEq 'o' c = false := by
  have h6 : c = ' ' ∨ c = '\t' ∨ c = '\n' ∨ c = '\r' ∨
      c = Char.ofNat 11 ∨ c = Char.ofNat 12 := by
    simpa [isJsWhitespace, or_assoc] using h
  rcases h6 with rfl | rfl | rfl | rfl | rfl | rfl <;>
    exact ⟨by decide, by decide, by decide, by decide⟩

/-- Trimming an all-whitespace string yields the empty string. -/
theorem jsTrim_all_ws (cs : List Char) (h : ∀ c ∈ cs, isJsWhitespace c = true) :
    jsTrim cs = [] := by
  have h1 : cs.dropWhile isJsWhitespace = [] := List.dropWhile_eq_nil_iff.mpr h
  simp [jsTrim, h1]

/-- C10: with sanitization enabled, a string cell containing no script
block, no HTML tag, no `javascript:` URI and no event-handler pattern
(each formalized as the corresponding removal pass leaving the string
unchanged) is still trimmed of leading and trailing whitespace; an
all-whitespace cell becomes the empty string; non-string cells are
returned unchanged. -/
theorem sanitizeCellValue_trim_spec (s : String) :
    (stripScripts s.data = s.data → stripTags s.data = s.data →
      stripJsUri s.data = s.data → stripHandlers s.data = s.data →
      sanitizeCellValue (CellValue.str s) = CellValue.str (String.mk (jsTrim s.data))) ∧
    ((∀ c ∈ s.data, isJsWhitespace c = true) →
      sanitizeCellValue (CellValue.str s) = CellValue.str "") ∧
    (∀ n : Int, sanitizeCellValue (CellValue.num n) = CellValue.num n) ∧
    (∀ b : Bool, sanitizeCellValue (CellValue.boolean b) = CellValue.boolean b) ∧
    sanitizeCellValue CellValue.null = CellValue.null := by
  refine ⟨?_, ?_, fun n => rfl, fun b => rfl, rfl⟩
  · intro h1 h2 h3 h4
    simp [sanitizeCellValue, sanitizeString, h1, h2, h3, h4]
  · intro hws
    have h1 : stripScripts s.data = s.data :=
      stripScriptsGo_no_lt _ _ (fun c hc => (ws_char_never c (hws c hc)).1)
    have h2 : stripTags s.data = s.data :=
      stripTagsGo_no_lt _ _ (fun c hc => (ws_char_never c (hws c hc)).2.1)
    have h3 : stripJsUri s.data = s.data :=
      stripJsUriGo_no_j _ _ (fun c hc => (ws_char_never c (hws c hc)).2.2.1)
    have h4 : stripHandlers s.data = s.data :=
      stripHandlersGo_no_o _ _ (fun c hc => (ws_char_never c (hws c hc)).2.2.2)
    have ht : jsTrim s.data = [] := jsTrim_all_ws s.data hws
    simp [sanitizeCellValue, sanitizeString, h1, h2, h3, h4, ht]

/-- Witness for `sanitizeCellValue_trim_spec` on a pattern-free padded
string and on an all-whitespace string. -/
theorem sanitizeCellValue_trim_spec_witness :
    sanitizeCellValue (CellValue.str "  data  ") =
      CellValue.str (String.mk (jsTrim "  data  ".data)) ∧
    sanitizeCellValue (CellValue.str "   ") = CellValue.str "" :=
  ⟨(sanitizeCellValue_trim_spec "  data  ").1 (by decide) (by decide) (by decide) (by decide),
   (sanitizeCellValue_trim_spec "   ").2.1 (by decide)⟩

/-- The generic production message differs from every aggregated
validation message (they differ at character index 5). -/
theorem secure_ne_validation (v : FileValidationResult) :
    secureErrorMessage ≠ validationFailedMessage v := by
  intro h
  have h5 : secureErrorMessage.data.get? 5 = some 'p' := by decide
  have h6 : (validationFailedMessage v).data.get? 5 = some 'v' := by
    simp only [validationFailedMessage]
    rw [String.data_append, List.get?_eq_getElem?, List.getElem?_append_left (by decide)]
    decide
  rw [h] at h5
  rw [h6] at h5
  exact absurd h5 (by decide)

/-- The unexpected-error production message also differs from every
aggregated validation message (they differ at character index 0). -/
theorem unexpected_ne_validation (v : FileValidationResult) :
    unexpectedErrorMessage ≠ validationFailedMessage v := by
  intro h
  have h5 : unexpectedErrorMessage.data.get? 0 = some 'A' := by decide
  have h6 : (validationFailedMessage v).data.get? 0 = some 'F' := by
    simp only [validationFailedMessage]
    rw [String.data_append, List.get?_eq_getElem?, List.getElem?_append_left (by decide)]
    decide
  rw [h] at h5
  rw [h6] at h5
  exact absurd h5 (by decide)

/-- C8 counterexample: the catch clause picks its production message
with `error instanceof Error`, so a reachable non-`Error` rejection (a
`FileReader` `onerror` event, passed to `reject` in both read paths) is
re-thrown with the second generic message, not the single "processing
failed" one the claim states for every failure. -/
theorem spreadSheetService_two_messages_cex :
    spreadSheetServiceWrap false (Except.error RejectionValue.nonError) =
      Except.error (RejectionValue.errorInstance unexpectedErrorMessage) ∧
    spreadSheetServiceWrap false
      (Except.error (RejectionValue.errorInstance "Invalid sheet selection")) =
      Except.error (RejectionValue.errorInstance secureErrorMessage) ∧
    unexpectedErrorMessage ≠ secureErrorMessage := by
  exact ⟨rfl, rfl, by decide⟩

/-- C8 (amended): in production mode every failure of the public
`process()` boundary is re-thrown as an `Error` carrying one of two
fixed generic messages — the secure message for `Error` rejections
(every error the pipeline itself throws) and the unexpected-error
message for non-`Error` rejections — neither of which leaks any of the
internal sheet/header/rate-limit/validation messages; in
diagnostic/test mode the pipeline outcome propagates unmodified. -/
theorem spreadSheetService_error_boundary
    (r : Except RejectionValue SpreadsheetDataModel) :
    (∀ e : RejectionValue, spreadSheetServiceWrap false r = Except.error e →
      e = RejectionValue.errorInstance secureErrorMessage ∨
      e = RejectionValue.errorInstance unexpectedErrorMessage) ∧
    (∀ msg : String,
      spreadSheetServiceWrap false (Except.error (RejectionValue.errorInstance msg)) =
        Except.error (RejectionValue.errorInstance secureErrorMessage)) ∧
    spreadSheetServiceWrap false (Except.error RejectionValue.nonError) =
      Except.error (RejectionValue.errorInstance unexpectedErrorMessage) ∧
    spreadSheetServiceWrap true r = r ∧
    (∀ msg : String,
      spreadSheetServiceWrap false r =
        Except.error (RejectionValue.errorInstance msg) →
      msg ≠ "Invalid sheet selection" ∧ msg ≠ "Named sheet not found" ∧
      msg ≠ "Header data not available" ∧ msg ≠ "Header row is out of bounds" ∧
      msg ≠ rateLimitErrorMessage ∧
      ∀ v : FileValidationResult, msg ≠ validationFailedMessage v) := by
  refine ⟨?_, fun msg => rfl, rfl, ?_, ?_⟩
  · intro e h
    cases r with
    | ok d => simp [spreadSheetServiceWrap] at h
    | error e0 =>
      cases e0 with
      | errorInstance m =>
        simp [spreadSheetServiceWrap] at h
        exact Or.inl h.symm
      | nonError =>
        simp [spreadSheetServiceWrap] at h
        exact Or.inr h.symm
  · cases r with
    | ok d => rfl
    | error e0 => rfl
  · intro msg h
    have hm : msg = secureErrorMessage ∨ msg = unexpectedErrorMessage := by
      cases r with
      | ok d => simp [spreadSheetServiceWrap] at h
      | error e0 =>
        cases e0 with
        | errorInstance m =>
          simp [spreadSheetServiceWrap] at h
          exact Or.inl h.symm
        | nonError =>
          simp [spreadSheetServiceWrap] at h
          exact Or.inr h.symm
    rcases hm with rfl | rfl
    · exact ⟨by decide, by decide, by decide, by decide, by decide, secure_ne_validation⟩
    · exact ⟨by decide, by decide, by decide, by decide, by decide, unexpected_ne_validation⟩

/-- Witness for `spreadSheetService_error_boundary` at the internal
sheet-selection error and at a non-`Error` rejection. -/
theorem spreadSheetService_error_boundary_witness :
    secureErrorMessage ≠ "Invalid sheet selection" ∧
    secureErrorMessage ≠ rateLimitErrorMessage ∧
    spreadSheetServiceWrap true (Except.error RejectionValue.nonError) =
      Except.error RejectionValue.nonError := by
  have h := (spreadSheetService_error_boundary
    (Except.error (RejectionValue.errorInstance "Invalid sheet selection"))).2.2.2.2
    secureErrorMessage (by decide)
  exact ⟨h.1, h.2.2.2.2.1,
    (spreadSheetService_error_boundary (Except.error RejectionValue.nonError)).2.2.2.1⟩

/-- C9 counterexample: `handleFiles` on the empty file list returns
early and does not reset the per-batch state — pre-existing errors
survive, contradicting the claim for the empty list. -/
theorem handleFiles_empty_cex :
    (handleFiles []
      { map := []
        errors := [{ option := { label := "Name", value := "name", required := true }
                     message := "Name is required", type := MappingErrorType.validation }]
        processedFiles := []
        fileProcessingStates := []
        isProcessing := false
        performanceMetrics := [] }).errors =
      [{ option := { label := "Name", value := "name", required := true }
         message := "Name is required", type := MappingErrorType.validation }] ∧
    ([{ option := { label := "Name", value := "name", required := true }
        message := "Name is required", type := MappingErrorType.validation }] :
      List MappingError) ≠ [] := by
  exact ⟨rfl, by decide⟩

/-- C9 (amended): for every non-empty file list, `handleFiles` clears
`processedFiles`, `errors` and `performanceMetrics`, starts processing,
initializes exactly one pending `FileProcessingState` per file, and
leaves the mapping list unchanged; on the empty list it returns the
state unchanged (early return). -/
theorem handleFiles_spec (files : List FileModel) (s : HookState) :
    (files ≠ [] →
      (handleFiles files s).processedFiles = [] ∧
      (handleFiles files s).errors = [] ∧
      (handleFiles files s).performanceMetrics = [] ∧
      (handleFiles files s).isProcessing = true ∧
      (handleFiles files s).fileProcessingStates =
        files.map (fun f => { file := f, status := FileStatus.pending }) ∧
      (handleFiles files s).map = s.map) ∧
    handleFiles [] s = s := by
  constructor
  · intro h
    have hlen : ¬ files.length = 0 := by
      simpa [List.length_eq_zero] using h
    simp [handleFiles, hlen]
  · rfl

/-- Witness for `handleFiles_spec` on a one-file batch. -/
theorem handleFiles_spec_witness :
    (handleFiles [{ name := "a.csv", size := 1, type := "text/csv" }]
      { map := [{ field := "A", value := "name" }], errors := [], processedFiles := [],
        fileProcessingStates := [], isProcessing := false,
        performanceMetrics := [] }).fileProcessingStates =
      [{ file := { name := "a.csv", size := 1, type := "text/csv" },
         status := FileStatus.pending }] ∧
    (handleFiles [{ name := "a.csv", size := 1, type := "text/csv" }]
      { map := [{ field := "A", value := "name" }], errors := [], processedFiles := [],
        fileProcessingStates := [], isProcessing := false,
        performanceMetrics := [] }).map = [{ field := "A", value := "name" }] := by
  have h := (handleFiles_spec [{ name := "a.csv", size := 1, type := "text/csv" }]
    { map := [{ field := "A", value := "name" }], errors := [], processedFiles := [],
      fileProcessingStates := [], isProcessing := false,
      performanceMetrics := [] }).1 (by decide)
  exact ⟨h.2.2.2.2.1, h.2.2.2.2.2⟩

/-- C1 counterexample: under the default configuration, a file with a
disallowed extension fails with the aggregated validation message, yet
the rate limiter was consulted and mutated first (the fresh table gains
an entry with `fileCount = 1`); and once the quota is exhausted the same
invalid file fails with the rate-limit error instead. -/
theorem processFileGate_order_cex :
    (processFileGate { name := "a.exe", size := 0, type := "" } {} "c" 0 []).1 =
      Except.error ("File validation failed: File extension '.exe' is not allowed. " ++
        "Allowed extensions: .xlsx, .xls, .csv") ∧
    (processFileGate { name := "a.exe", size := 0, type := "" } {} "c" 0 []).2 =
      [("c", { fileCount := 1, windowStart := 0 })] ∧
    ([("c", { fileCount := 1, windowStart := 0 })] : RateLimitTable) ≠ [] ∧
    (processFileGate { name := "a.exe", size := 0, type := "" } {} "c" 10
      [("c", { fileCount := 10, windowStart := 0 })]).1 =
      Except.error rateLimitErrorMessage := by
  refine ⟨by decide, by decide, by decide, by decide⟩

/-- C1 (amended): the per-file pipeline runs the rate-limit check
before file validation: the rate-limit table after the call is always
the one `checkRateLimit` produced (so every file, valid or not,
consults and — when quota remains — mutates the limiter); a denied
check fails with the rate-limit error regardless of validity; an
allowed check followed by failed validation fails with the aggregated
validation message; an allowed check with a valid file proceeds. -/
theorem processFileGate_order_spec (file : FileModel) (security : SecurityConfigOpt)
    (clientId : String) (now : Nat) (table : RateLimitTable) :
    (processFileGate file security clientId now table).2 =
      (checkRateLimit clientId (mergeSecurity security) now table).2 ∧
    ((checkRateLimit clientId (mergeSecurity security) now table).1 = false →
      (processFileGate file security clientId now table).1 =
        Except.error rateLimitErrorMessage) ∧
    ((checkRateLimit clientId (mergeSecurity security) now table).1 = true →
      (validateFile file (mergeSecurity security)).isValid = false →
      (processFileGate file security clientId now table).1 =
        Except.error (validationFailedMessage (validateFile file (mergeSecurity security)))) ∧
    ((checkRateLimit clientId (mergeSecurity security) now table).1 = true →
      (validateFile file (mergeSecurity security)).isValid = true →
      (processFileGate file security clientId now table).1 = Except.ok ()) := by
  refine ⟨?_, ?_, ?_, ?_⟩
  · simp only [processFileGate]
    split
    · rfl
    · split
      · rfl
      · rfl
  · intro h
    simp [processFileGate, h]
  · intro h1 h2
    simp [processFileGate, h1, h2]
  · intro h1 h2
    simp [processFileGate, h1, h2]

/-- Witness for `processFileGate_order_spec`: a fresh client submitting
an invalid file gets the validation error (the rate-limit check has
already passed). -/
theorem processFileGate_order_spec_witness :
    (processFileGate { name := "a.exe", size := 0, type := "" } {} "c" 0 []).1 =
      Except.error (validationFailedMessage
        (validateFile { name := "a.exe", size := 0, type := "" } (mergeSecurity {}))) :=
  (processFileGate_order_spec { name := "a.exe", size := 0, type := "" } {} "c" 0 []).2.2.1
    (by decide) (by decide)

/-- The validation pass of `handleFileFinish` is exactly one error per
required option whose scoped mapping is missing or unsaved. -/
theorem fileFinishErrors_eq (options : List MappingOption) (map : List MappedField)
    (dataName : String) :
    fileFinishErrors options map dataName =
      (options.filter (fun o => o.required && !(requiredSatisfied map dataName o))).map
        (fun o => { option := o, message := o.label ++ " is required and must be saved",
                    type := MappingErrorType.validation }) := by
  induction options with
  | nil => rfl
  | cons o os ih =>
    simp only [fileFinishErrors, List.filterMap_cons, List.filter_cons]
    by_cases hreq : o.required = true
    · cases hsf : scopedFind map dataName o.value with
      | none =>
        simp only [fileFinishErrors] at ih
        simp [hreq, requiredSatisfied, hsf, ih]
      | some mf =>
        by_cases hsaved : mf.saved = true
        · simp only [fileFinishErrors] at ih
          simp [hreq, requiredSatisfied, hsf, hsaved, ih]
        · simp only [fileFinishErrors] at ih
          simp [hreq, requiredSatisfied, hsf, hsaved, ih]
    · simp only [fileFinishErrors] at ih
      simp [hreq, ih]

/-- The validation pass of `finish()` is exactly one error per required
option with no mapping for its value; `saved` plays no part. -/
theorem finishErrors_eq (options : List MappingOption) (map : List MappedField) :
    finishErrors options map =
      (options.filter (fun o =>
          o.required && (map.find? (fun item => item.value == o.value)).isNone)).map
        (fun o => { option := o, message := o.label ++ " is required",
                    type := MappingErrorType.validation }) := by
  induction options with
  | nil => rfl
  | cons o os ih =>
    simp only [finishErrors, List.filterMap_cons, List.filter_cons]
    by_cases hreq : o.required = true
    · by_cases hfind : (map.find? (fun item => item.value == o.value)).isNone = true
      · simp only [finishErrors] at ih
        simp [hreq, hfind, ih, -Option.isNone_iff_eq_none, -List.find?_eq_none]
      · simp only [finishErrors] at ih
        simp [hreq, hfind, ih, -Option.isNone_iff_eq_none, -List.find?_eq_none]
    · simp only [finishErrors] at ih
      simp [hreq, ih, -Option.isNone_iff_eq_none, -List.find?_eq_none]

/-- C2 counterexample: with one required option mapped but not saved,
`finish()` produces no error at all (it never consults `saved`), while
`handleFileFinish` on the same state produces the required-and-saved
error — refuting the claim that both operations check the `saved`
flag. -/
theorem finish_ignores_saved_cex :
    finishErrors [{ label := "Name", value := "name", required := true }]
      [{ field := "A", value := "name", saved := false }] = [] ∧
    fileFinishErrors [{ label := "Name", value := "name", required := true }]
      [{ field := "A", value := "name", saved := false }] "d.csv" =
      [{ option := { label := "Name", value := "name", required := true }
         message := "Name is required and must be saved"
         type := MappingErrorType.validation }] := by
  exact ⟨by decide, by decide⟩

/-- C2 (amended): `handleFileFinish` adds exactly one `MappingError`
per required option whose scoped mapping (fileName falsy — absent or
empty — or equal to the file's name) is missing or unsaved, and invokes
`onFinish` with the scoped pairs exactly when there is no such option;
`finish()` checks
only that each required option has some mapping by value — ignoring
`saved` and `fileName` — and never invokes `onFinish`. -/
theorem finish_and_fileFinish_spec (options : List MappingOption) (map : List MappedField)
    (dataName : String) :
    fileFinishErrors options map dataName =
      (options.filter (fun o => o.required && !(requiredSatisfied map dataName o))).map
        (fun o => { option := o, message := o.label ++ " is required and must be saved",
                    type := MappingErrorType.validation }) ∧
    (fileFinishErrors options map dataName = [] →
      handleFileFinish options map dataName = Except.ok (scopedPairs map dataName)) ∧
    (fileFinishErrors options map dataName ≠ [] →
      handleFileFinish options map dataName =
        Except.error (fileFinishErrors options map dataName)) ∧
    finishErrors options map =
      (options.filter (fun o =>
          o.required && (map.find? (fun item => item.value == o.value)).isNone)).map
        (fun o => { option := o, message := o.label ++ " is required",
                    type := MappingErrorType.validation }) := by
  refine ⟨fileFinishErrors_eq options map dataName, ?_, ?_, finishErrors_eq options map⟩
  · intro h
    simp [handleFileFinish, h]
  · intro h
    have hne : (fileFinishErrors options map dataName).isEmpty = false := by
      simpa [List.isEmpty_iff] using h
    simp [handleFileFinish, hne]

/-- Witness for `finish_and_fileFinish_spec`: with the required option
mapped and saved, `handleFileFinish` succeeds with the scoped pairs. -/
theorem finish_and_fileFinish_spec_witness :
    handleFileFinish [{ label := "Name", value := "name", required := true }]
      [{ field := "A", value := "name", saved := true }] "d.csv" =
      Except.ok [("A", "name")] :=
  ((finish_and_fileFinish_spec [{ label := "Name", value := "name", required := true }]
      [{ field := "A", value := "name", saved := true }] "d.csv").2.1 (by decide)).trans
    (by decide)

/-- After setting a key, looking it up yields the new value. -/
theorem lookup_setEntry_self {β : Type} (l : List (String × β)) (k : String) (v : β) :
    (setEntry l k v).lookup k = some v := by
  induction l with
  | nil => simp [setEntry, List.lookup]
  | cons p rest ih =>
    obtain ⟨k0, v0⟩ := p
    by_cases h : k0 = k
    · subst h
      simp [setEntry, List.lookup]
    · have h2 : ¬ k = k0 := fun e => h e.symm
      have hb : (k == k0) = false := beq_eq_false_iff_ne.mpr h2
      simp [setEntry, List.lookup, h, hb, ih]

/-- Setting one key leaves every other key's lookup unchanged. -/
theorem lookup_setEntry_other {β : Type} (l : List (String × β)) (k k' : String) (v : β)
    (h : k' ≠ k) : (setEntry l k v).lookup k' = l.lookup k' := by
  have hb : (k' == k) = false := beq_eq_false_iff_ne.mpr h
  induction l with
  | nil => simp [setEntry, List.lookup, hb]
  | cons p rest ih =>
    obtain ⟨k0, v0⟩ := p
    by_cases h0 : k0 = k
    · subst h0
      simp [setEntry, List.lookup, hb]
    · by_cases h1 : k' = k0
      · subst h1
        simp [setEntry, h0, List.lookup]
      · have hb1 : (k' == k0) = false := beq_eq_false_iff_ne.mpr h1
        simp [setEntry, h0, List.lookup, hb1, ih]

/-- First request of a fresh client id: allowed, and the stored window
starts at the current time with one file counted. -/
theorem checkRateLimit_fresh (clientId : String) (cfg : RequiredSecurityConfig)
    (now : Nat) (table : RateLimitTable) (h : table.lookup clientId = none)
    (hmax : 1 ≤ cfg.maxFilesPerWindow) :
    checkRateLimit clientId cfg now table =
      (true, setEntry table clientId { fileCount := 1, windowStart := now }) := by
  have h0 : ¬ cfg.maxFilesPerWindow ≤ 0 := by omega
  simp [checkRateLimit, h, Nat.sub_self, h0]

/-- A request inside the current window with remaining quota: allowed,
with the stored count incremented and the window start unchanged. -/
theorem checkRateLimit_active (clientId : String) (cfg : RequiredSecurityConfig)
    (now : Nat) (table : RateLimitTable) (st : RateLimitState)
    (h : table.lookup clientId = some st)
    (hwin : now - st.windowStart ≤ cfg.rateLimitWindow)
    (hcount : st.fileCount < cfg.maxFilesPerWindow) :
    checkRateLimit clientId cfg now table =
      (true, setEntry table clientId
        { fileCount := st.fileCount + 1, windowStart := st.windowStart }) := by
  have h1 : ¬ cfg.rateLimitWindow < now - st.windowStart := Nat.not_lt.mpr hwin
  have h2 : ¬ cfg.maxFilesPerWindow ≤ st.fileCount := Nat.not_le.mpr hcount
  simp [checkRateLimit, h, h1, h2]

/-- A request inside the current window with the quota exhausted:
denied, and the table is returned unchanged. -/
theorem checkRateLimit_deny (clientId : String) (cfg : RequiredSecurityConfig)
    (now : Nat) (table : RateLimitTable) (st : RateLimitState)
    (h : table.lookup clientId = some st)
    (hwin : now - st.windowStart ≤ cfg.rateLimitWindow)
    (hcount : cfg.maxFilesPerWindow ≤ st.fileCount) :
    checkRateLimit clientId cfg now table = (false, table) := by
  have h1 : ¬ cfg.rateLimitWindow < now - st.windowStart := Nat.not_lt.mpr hwin
  simp [checkRateLimit, h, h1, hcount]

/-- A request after the window expired (with a positive quota): the
window is reset to the current time and the request is allowed. -/
theorem checkRateLimit_reset (clientId : String) (cfg : RequiredSecurityConfig)
    (now : Nat) (table : RateLimitTable) (st : RateLimitState)
    (h : table.lookup clientId = some st)
    (hexp : cfg.rateLimitWindow < now - st.windowStart)
    (hmax : 1 ≤ cfg.maxFilesPerWindow) :
    checkRateLimit clientId cfg now table =
      (true, setEntry table clientId { fileCount := 1, windowStart := now }) := by
  have h0 : ¬ cfg.maxFilesPerWindow ≤ 0 := by omega
  simp [checkRateLimit, h, hexp, h0]

/-- A `checkRateLimit` call never changes another client's entry. -/
theorem checkRateLimit_other (clientId c' : String) (cfg : RequiredSecurityConfig)
    (now : Nat) (table : RateLimitTable) (h : c' ≠ clientId) :
    ((checkRateLimit clientId cfg now table).2).lookup c' = table.lookup c' := by
  simp only [checkRateLimit]
  split_ifs <;> simp [lookup_setEntry_other _ _ _ _ h]

/-- A run of requests inside the current window, starting from a stored
count `k`, is fully allowed while the quota lasts and increments the
stored count once per request. -/
theorem runRequests_burst (clientId : String) (cfg : RequiredSecurityConfig) :
    ∀ (ts : List Nat) (table : RateLimitTable) (k w : Nat),
      table.lookup clientId = some { fileCount := k, windowStart := w } →
      (∀ t ∈ ts, t - w ≤ cfg.rateLimitWindow) →
      k + ts.length ≤ cfg.maxFilesPerWindow →
      (runRequests clientId cfg ts table).1 = List.replicate ts.length true ∧
      (runRequests clientId cfg ts table).2.lookup clientId =
        some { fileCount := k + ts.length, windowStart := w } := by
  intro ts
  induction ts with
  | nil =>
    intro table k w h _ _
    exact ⟨rfl, by simpa using h⟩
  | cons t ts ih =>
    intro table k w h hwin hcount
    have hk : k < cfg.maxFilesPerWindow := by
      simp only [List.length_cons] at hcount
      omega
    have hstep := checkRateLimit_active clientId cfg t table _ h
      (hwin t (List.mem_cons_self t ts)) hk
    obtain ⟨ih1, ih2⟩ := ih (setEntry table clientId { fileCount := k + 1, windowStart := w })
      (k + 1) w (lookup_setEntry_self _ _ _)
      (fun x hx => hwin x (List.mem_cons_of_mem t hx))
      (by simp only [List.length_cons] at hcount; omega)
    constructor
    · simp only [runRequests, hstep, ih1, List.length_cons, List.replicate_succ]
    · have he : k + 1 + ts.length = k + (ts.length + 1) := by omega
      simp only [runRequests, hstep, List.length_cons]
      rw [← he]
      exact ih2

/-- C4 (amended, requires a positive quota): for a positive
`maxFilesPerWindow` the limiter is a sliding fixed window — starting
fresh, the first `maxFilesPerWindow` requests within the window of the
first request are all allowed, each incrementing the stored count; a
request with the quota exhausted inside the window is denied with the
table unchanged; a request after the window expired resets the entry to
`fileCount = 1, windowStart = now` and is allowed; and no call ever
touches another client's entry. -/
theorem checkRateLimit_sliding_window (cfg : RequiredSecurityConfig) (clientId : String)
    (hmax : 1 ≤ cfg.maxFilesPerWindow) :
    (∀ (t1 : Nat) (ts : List Nat) (table : RateLimitTable),
      table.lookup clientId = none →
      (∀ t ∈ ts, t - t1 ≤ cfg.rateLimitWindow) →
      ts.length + 1 ≤ cfg.maxFilesPerWindow →
      (runRequests clientId cfg (t1 :: ts) table).1 =
        List.replicate (ts.length + 1) true ∧
      (runRequests clientId cfg (t1 :: ts) table).2.lookup clientId =
        some { fileCount := ts.length + 1, windowStart := t1 }) ∧
    (∀ (table : RateLimitTable) (st : RateLimitState) (t : Nat),
      table.lookup clientId = some st →
      t - st.windowStart ≤ cfg.rateLimitWindow →
      cfg.maxFilesPerWindow ≤ st.fileCount →
      checkRateLimit clientId cfg t table = (false, table)) ∧
    (∀ (table : RateLimitTable) (st : RateLimitState) (t : Nat),
      table.lookup clientId = some st →
      cfg.rateLimitWindow < t - st.windowStart →
      checkRateLimit clientId cfg t table =
        (true, setEntry table clientId { fileCount := 1, windowStart := t })) ∧
    (∀ (table : RateLimitTable) (t : Nat) (c' : String), c' ≠ clientId →
      ((checkRateLimit clientId cfg t table).2).lookup c' = table.lookup c') := by
  refine ⟨?_, ?_, ?_, ?_⟩
  · intro t1 ts table hfresh hwin hcount
    have hstep := checkRateLimit_fresh clientId cfg t1 table hfresh hmax
    obtain ⟨ih1, ih2⟩ := runRequests_burst clientId cfg ts
      (setEntry table clientId { fileCount := 1, windowStart := t1 })
      1 t1 (lookup_setEntry_self _ _ _) hwin (by omega)
    constructor
    · simp only [runRequests, hstep, ih1, List.replicate_succ]
    · simp only [runRequests, hstep]
      have he : 1 + ts.length = ts.length + 1 := by omega
      rw [← he]
      exact ih2
  · intro table st t h hwin hcount
    exact checkRateLimit_deny clientId cfg t table st h hwin hcount
  · intro table st t h hexp
    exact checkRateLimit_reset clientId cfg t table st h hexp hmax
  · intro table t c' h
    exact checkRateLimit_other clientId c' cfg t table h

/-- Witness for `checkRateLimit_sliding_window`: three requests of a
fresh client under the default configuration are all allowed and
counted. -/
theorem checkRateLimit_sliding_window_witness :
    (runRequests "alice" defaultSecurityConfig (0 :: [1, 2]) []).1 =
      List.replicate ([1, 2].length + 1) true ∧
    (runRequests "alice" defaultSecurityConfig (0 :: [1, 2]) []).2.lookup "alice" =
      some { fileCount := [1, 2].length + 1, windowStart := 0 } :=
  (checkRateLimit_sliding_window defaultSecurityConfig "alice" (by decide)).1 0 [1, 2] []
    (by decide) (by decide) (by decide)

/-- C4 counterexample: with `maxFilesPerWindow = 0` a request arriving
after the window has expired is still denied, and — because the source
mutates the stored object in place before the quota check — the denial
also rewrites the stored window state, contradicting both the
"allowed again after expiry" and the "denied with no mutation" parts
of the claim as stated for every security config. -/
theorem checkRateLimit_zero_quota_cex :
    checkRateLimit "alice"
      { maxFileSize := 52428800, allowedExtensions := [".csv"],
        allowedMimeTypes := ["text/csv"], sanitizeData := true,
        maxFilesPerWindow := 0, rateLimitWindow := 10 }
      20 [("alice", { fileCount := 5, windowStart := 0 })] =
      (false, [("alice", { fileCount := 0, windowStart := 20 })]) ∧
    ([("alice", { fileCount := 0, windowStart := 20 })] : RateLimitTable) ≠
      [("alice", { fileCount := 5, windowStart := 0 })] := by
  exact ⟨by decide, by decide⟩

/-- When an index satisfies the predicate and all earlier indices fail
it, `findIdx?` returns exactly that index (shifted by the start
offset). -/
theorem findIdx?_first {α : Type} (p : α → Bool) :
    ∀ (l : List α) (k i : Nat) (hi : i < l.length),
      p (l.get ⟨i, hi⟩) = true →
      (∀ (j : Nat) (hj : j < l.length), j < i → p (l.get ⟨j, hj⟩) = false) →
      List.findIdx? p l k = some (k + i) := by
  intro l
  induction l with
  | nil => intro k i hi; exact absurd hi (Nat.not_lt_zero i)
  | cons a l ih =>
    intro k i hi hp hmin
    cases i with
    | zero =>
      have ha : p a = true := by simpa using hp
      simp [List.findIdx?_cons, ha]
    | succ i =>
      have ha : p a = false := hmin 0 (by simp) (by omega)
      rw [List.findIdx?_cons, if_neg (by simp [ha])]
      have hi' : i < l.length := by
        simp only [List.length_cons] at hi
        omega
      have hr := ih (k + 1) i hi' (by simpa using hp)
        (fun j hj hji => by
          have := hmin (j + 1) (by simp only [List.length_cons]; omega) (by omega)
          simpa using this)
      rw [hr]
      congr 1
      omega

/-- A non-falsy optional fileName is some specific non-empty string. -/
theorem falsyFileName_eq_false {o : Option String} (h : falsyFileName o = false) :
    ∃ f, o = some f ∧ (f == "") = false := by
  cases o with
  | none => simp [falsyFileName] at h
  | some s => exact ⟨s, rfl, by simpa [falsyFileName] using h⟩

/-- In per-file mode (both sides carry a truthy, i.e. non-empty,
`fileName`) the backward-compatible match predicate is exact
`(value, fileName)` key equality. -/
theorem mappingMatches_eq_key (r item : MappedField)
    (hr : falsyFileName r.fileName = false) (hi : falsyFileName item.fileName = false) :
    mappingMatches r.value r.fileName item = decide (mappingKey item = mappingKey r) := by
  obtain ⟨f, hf, hfe⟩ := falsyFileName_eq_false hr
  obtain ⟨g, hg, hge⟩ := falsyFileName_eq_false hi
  by_cases hv : item.value = r.value
  · by_cases hgf : g = f
    · simp [mappingMatches, mappingKey, falsyFileName, hf, hg, hfe, hge, hv, hgf]
    · simp [mappingMatches, mappingKey, falsyFileName, hf, hg, hfe, hge, hv, hgf]
  · simp [mappingMatches, mappingKey, falsyFileName, hf, hg, hfe, hge, hv]

/-- In per-file mode `updateOrCreate` appends when no entry shares the
record's key. -/
theorem updateOrCreate_append (r : MappedField) (m : List MappedField)
    (hr : falsyFileName r.fileName = false)
    (hm : ∀ x ∈ m, falsyFileName x.fileName = false)
    (hnew : ∀ x ∈ m, mappingKey x ≠ mappingKey r) :
    updateOrCreate r m = m ++ [r] := by
  have hnone : m.findIdx? (mappingMatches r.value r.fileName) = none :=
    List.findIdx?_eq_none_iff.mpr (fun x hx => by
      rw [mappingMatches_eq_key r x hr (hm x hx)]
      simp [hnew x hx])
  simp [updateOrCreate, hnone]

/-- In per-file mode `updateOrCreate` replaces in place at the unique
index sharing the record's key (keys pairwise distinct). -/
theorem updateOrCreate_replace (r : MappedField) (m : List MappedField)
    (hr : falsyFileName r.fileName = false)
    (hm : ∀ x ∈ m, falsyFileName x.fileName = false)
    (hp : m.Pairwise (fun a b => mappingKey a ≠ mappingKey b))
    (i : Nat) (hi : i < m.length)
    (hkey : mappingKey (m.get ⟨i, hi⟩) = mappingKey r) :
    updateOrCreate r m = m.set i r := by
  have hpget := List.pairwise_iff_get.mp hp
  have hfind : m.findIdx? (mappingMatches r.value r.fileName) = some i := by
    have h0 := findIdx?_first (mappingMatches r.value r.fileName) m 0 i hi
      (by
        rw [mappingMatches_eq_key r _ hr (hm _ (m.get_mem i hi))]
        simp only [decide_eq_true_eq]
        exact hkey)
      (fun j hj hji => by
        have hne := hpget ⟨j, hj⟩ ⟨i, hi⟩ hji
        rw [mappingMatches_eq_key r _ hr (hm _ (m.get_mem j hj))]
        simp only [decide_eq_false_iff_not]
        exact fun he => hne (he.trans hkey.symm))
    simpa using h0
  simp [updateOrCreate, hfind]

/-- Replacing an entry by a record with the same key preserves pairwise
key distinctness. -/
theorem pairwise_set_key :
    ∀ (l : List MappedField) (i : Nat) (hi : i < l.length) (r : MappedField),
      l.Pairwise (fun a b => mappingKey a ≠ mappingKey b) →
      mappingKey (l.get ⟨i, hi⟩) = mappingKey r →
      (l.set i r).Pairwise (fun a b => mappingKey a ≠ mappingKey b) := by
  intro l
  induction l with
  | nil => intro i hi; exact absurd hi (Nat.not_lt_zero i)
  | cons a l ih =>
    intro i hi r hp hkey
    rw [List.pairwise_cons] at hp
    obtain ⟨ha, hl⟩ := hp
    cases i with
    | zero =>
      have hka : mappingKey a = mappingKey r := by simpa using hkey
      rw [List.set_cons_zero, List.pairwise_cons]
      refine ⟨?_, hl⟩
      intro b hb
      rw [← hka]
      exact ha b hb
    | succ i =>
      have hi2 : i < l.length := by
        simp only [List.length_cons] at hi
        omega
      have hkey2 : mappingKey (l.get ⟨i, hi2⟩) = mappingKey r := by simpa using hkey
      rw [List.set_cons_succ, List.pairwise_cons]
      refine ⟨?_, ih i hi2 r hl hkey2⟩
      intro b hb
      rcases List.mem_or_eq_of_mem_set hb with h | h
      · exact ha b h
      · subst h
        rw [← hkey2]
        exact ha _ (l.get_mem i hi2)

/-- One `updateOrCreate` step preserves the per-file invariant: all
entries keep a truthy `fileName` and keys stay pairwise distinct. -/
theorem updateOrCreate_inv (r : MappedField) (m : List MappedField)
    (hr : falsyFileName r.fileName = false)
    (hm : ∀ x ∈ m, falsyFileName x.fileName = false)
    (hp : m.Pairwise (fun a b => mappingKey a ≠ mappingKey b)) :
    (∀ x ∈ updateOrCreate r m, falsyFileName x.fileName = false) ∧
    (updateOrCreate r m).Pairwise (fun a b => mappingKey a ≠ mappingKey b) := by
  by_cases hex : ∃ i : Fin m.length, mappingKey (m.get i) = mappingKey r
  · obtain ⟨⟨i, hi⟩, hkey⟩ := hex
    rw [updateOrCreate_replace r m hr hm hp i hi hkey]
    constructor
    · intro x hx
      rcases List.mem_or_eq_of_mem_set hx with h | h
      · exact hm x h
      · subst h; exact hr
    · exact pairwise_set_key m i hi r hp hkey
  · push_neg at hex
    have hnew : ∀ x ∈ m, mappingKey x ≠ mappingKey r := by
      intro x hx
      obtain ⟨n, hn⟩ := List.mem_iff_get.mp hx
      rw [← hn]
      exact hex n
    rw [updateOrCreate_append r m hr hm hnew]
    constructor
    · intro x hx
      rcases List.mem_append.mp hx with h | h
      · exact hm x h
      · simp only [List.mem_singleton] at h
        subst h; exact hr
    · rw [List.pairwise_append]
      refine ⟨hp, by simp, ?_⟩
      intro a ha b hb
      simp only [List.mem_singleton] at hb
      subst hb
      exact hnew a ha

/-- The per-file invariant holds along any fold of `updateOrCreate`
steps. -/
theorem applyUpdates_inv :
    ∀ (records : List MappedField) (m : List MappedField),
      (∀ r ∈ records, falsyFileName r.fileName = false) →
      (∀ x ∈ m, falsyFileName x.fileName = false) →
      m.Pairwise (fun a b => mappingKey a ≠ mappingKey b) →
      (∀ x ∈ records.foldl (fun acc r => updateOrCreate r acc) m,
        falsyFileName x.fileName = false) ∧
      (records.foldl (fun acc r => updateOrCreate r acc) m).Pairwise
        (fun a b => mappingKey a ≠ mappingKey b) := by
  intro records
  induction records with
  | nil => intro m _ hm hp; exact ⟨hm, hp⟩
  | cons r rs ih =>
    intro m hall hm hp
    simp only [List.foldl_cons]
    have h1 := updateOrCreate_inv r m (hall r (List.mem_cons_self r rs)) hm hp
    exact ih (updateOrCreate r m) (fun x hx => hall x (List.mem_cons_of_mem r hx)) h1.1 h1.2

/-- C3 counterexample: from the empty map, the four-call sequence
`(v,a), (v,b), (v,falsy), (v,b)` ends with two entries that share the
key `(v, some b)`: the falsy-fileName record matched and replaced the
`(v,a)` entry, and the final `(v,b)` record then matched the falsy
entry instead of the existing `(v,b)` one. The falsy third record can
be fileName-less or carry the empty string — JS treats both as absent —
so even a sequence in which every record has a `fileName` field breaks
the claimed invariant. -/
theorem updateOrCreate_duplicate_key_cex :
    (applyUpdates
      [{ field := "f1", value := "v", saved := false, fileName := some "a" },
       { field := "f2", value := "v", saved := false, fileName := some "b" },
       { field := "f3", value := "v", saved := false, fileName := none },
       { field := "f4", value := "v", saved := false, fileName := some "b" }]).map
      mappingKey = [("v", some "b"), ("v", some "b")] ∧
    (applyUpdates
      [{ field := "f1", value := "v", saved := false, fileName := some "a" },
       { field := "f2", value := "v", saved := false, fileName := some "b" },
       { field := "f3", value := "v", saved := false, fileName := some "" },
       { field := "f4", value := "v", saved := false, fileName := some "b" }]).map
      mappingKey = [("v", some "b"), ("v", some "b")] := by
  exact ⟨by decide, by decide⟩

/-- C3 (amended): when every record passed to `updateOrCreate` carries
a truthy `fileName` (present and non-empty: strict per-file mode), the
map reached from the empty list keeps at most one `MappedField` per
`(value, fileName)` key; a record whose key is absent is appended, and
a record whose key is present replaces that entry in place. Records
with a falsy `fileName` (absent or empty string) mixed into a per-file
sequence can break the invariant. -/
theorem updateOrCreate_perFile_spec (records : List MappedField)
    (hall : ∀ r ∈ records, falsyFileName r.fileName = false) :
    (applyUpdates records).Pairwise (fun a b => mappingKey a ≠ mappingKey b) ∧
    (∀ x ∈ applyUpdates records, falsyFileName x.fileName = false) ∧
    (∀ (m : List MappedField) (r : MappedField),
      falsyFileName r.fileName = false →
      (∀ x ∈ m, falsyFileName x.fileName = false) →
      m.Pairwise (fun a b => mappingKey a ≠ mappingKey b) →
      ((∀ x ∈ m, mappingKey x ≠ mappingKey r) → updateOrCreate r m = m ++ [r]) ∧
      (∀ (i : Nat) (hi : i < m.length), mappingKey (m.get ⟨i, hi⟩) = mappingKey r →
        updateOrCreate r m = m.set i r)) := by
  have hinv := applyUpdates_inv records [] hall (by simp) List.Pairwise.nil
  refine ⟨hinv.2, hinv.1, ?_⟩
  intro m r hr hm hp
  exact ⟨fun hnew => updateOrCreate_append r m hr hm hnew,
    fun i hi hkey => updateOrCreate_replace r m hr hm hp i hi hkey⟩

/-- Witness for `updateOrCreate_perFile_spec` on a two-record strict
per-file sequence. -/
theorem updateOrCreate_perFile_spec_witness :
    (applyUpdates
      [{ field := "f1", value := "v", saved := false, fileName := some "a" },
       { field := "f2", value := "w", saved := false, fileName := some "a" }]).Pairwise
      (fun a b => mappingKey a ≠ mappingKey b) :=
  (updateOrCreate_perFile_spec
    [{ field := "f1", value := "v", saved := false, fileName := some "a" },
     { field := "f2", value := "w", saved := false, fileName := some "a" }]
    (by decide)).1

/-- With pairwise-distinct sheet names, looking up the name stored at
an index returns that index's sheet. -/
theorem lookup_of_get?_nodup :
    ∀ (l : List (String × SheetMatrix)) (n : Nat) (nm : String) (mx : SheetMatrix),
      (l.map Prod.fst).Nodup → l.get? n = some (nm, mx) → l.lookup nm = some mx := by
  intro l
  induction l with
  | nil => intro n nm mx _ h; simp at h
  | cons p rest ih =>
    intro n nm mx hnd h
    obtain ⟨k0, v0⟩ := p
    simp only [List.map_cons, List.nodup_cons] at hnd
    cases n with
    | zero =>
      simp only [List.get?] at h
      injection h with h
      injection h with h1 h2
      subst h1
      subst h2
      simp [List.lookup]
    | succ n =>
      simp only [List.get?] at h
      have hmem : nm ∈ rest.map Prod.fst := by
        have hin := List.get?_mem h
        exact List.mem_map_of_mem Prod.fst hin
      have hk : ¬ nm = k0 := fun e => hnd.1 (e ▸ hmem)
      have hb : (nm == k0) = false := beq_eq_false_iff_ne.mpr hk
      simp only [List.lookup, hb]
      exact ih n nm mx hnd.2 h

/-- A name occurring among the keys has a lookup result. -/
theorem lookup_isSome_of_mem :
    ∀ (l : List (String × SheetMatrix)) (s : String),
      s ∈ l.map Prod.fst → (l.lookup s).isSome = true := by
  intro l
  induction l with
  | nil => intro s h; simp at h
  | cons p rest ih =>
    intro s h
    obtain ⟨k0, v0⟩ := p
    by_cases hk : s = k0
    · subst hk
      simp [List.lookup]
    · have hb : (s == k0) = false := beq_eq_false_iff_ne.mpr hk
      simp only [List.map_cons, List.mem_cons] at h
      rcases h with h | h
      · exact absurd h hk
      · simp only [List.lookup, hb]
        exact ih s h

/-- C5: sheet extraction fails with exactly the specified error in each
case — a numeric selector at or beyond the sheet count fails with
"Invalid sheet selection"; an absent name fails with "Named sheet not
found"; in headered mode an empty matrix fails with "Header data not
available" and a `headerRow` beyond the matrix length fails with
"Header row is out of bounds" — and succeeds otherwise (for a workbook
whose sheet names are distinct and non-empty, as real workbooks are). -/
theorem extractSheet_error_spec (wb : Workbook) (headerRow : Nat)
    (dataStartRow : Option Nat) :
    (∀ (om : Bool) (n : Nat), (sheetNames wb).length ≤ n →
      extractSheet wb (SheetSelector.index n) om headerRow dataStartRow =
        Except.error "Invalid sheet selection") ∧
    (∀ (om : Bool) (s : String), ¬ s ∈ sheetNames wb →
      extractSheet wb (SheetSelector.name s) om headerRow dataStartRow =
        Except.error "Named sheet not found") ∧
    (∀ (sel : SheetSelector) (nm : String) (json : SheetMatrix),
      resolveSheet wb sel = Except.ok nm →
      wb.sheets.lookup nm = some json →
      (json = [] →
        extractSheet wb sel false headerRow dataStartRow =
          Except.error "Header data not available") ∧
      (json ≠ [] → json.length < headerRow →
        extractSheet wb sel false headerRow dataStartRow =
          Except.error "Header row is out of bounds") ∧
      exceptOk (extractSheet wb sel true headerRow dataStartRow) = true ∧
      (json ≠ [] → headerRow ≤ json.length →
        exceptOk (extractSheet wb sel false headerRow dataStartRow) = true)) ∧
    ((sheetNames wb).Nodup → (∀ x ∈ sheetNames wb, x ≠ "") →
      ∀ (n : Nat) (nm : String) (json : SheetMatrix),
        wb.sheets.get? n = some (nm, json) →
        resolveSheet wb (SheetSelector.index n) = Except.ok nm ∧
        wb.sheets.lookup nm = some json) ∧
    (∀ s : String, s ∈ sheetNames wb →
      resolveSheet wb (SheetSelector.name s) = Except.ok s ∧
      (wb.sheets.lookup s).isSome = true) := by
  refine ⟨?_, ?_, ?_, ?_, ?_⟩
  · intro om n h
    simp [extractSheet, resolveSheet, h]
  · intro om s h
    simp [extractSheet, resolveSheet, h]
  · intro sel nm json hres hlk
    refine ⟨?_, ?_, ?_, ?_⟩
    · intro hnil
      subst hnil
      simp [extractSheet, hres, hlk]
    · intro hne hlt
      have h0 : ¬ json.length = 0 := by
        simpa [List.length_eq_zero] using hne
      simp [extractSheet, hres, hlk, h0, hlt]
    · simp [extractSheet, hres, hlk, exceptOk]
    · intro hne hle
      have h0 : ¬ json.length = 0 := by
        simpa [List.length_eq_zero] using hne
      have hlt : ¬ json.length < headerRow := Nat.not_lt.mpr hle
      have hidx : min (headerRow - 1) (json.length - 1) < json.length := by omega
      simp [extractSheet, hres, hlk, h0, hlt, List.getElem?_eq_getElem hidx, exceptOk]
  · intro hnd hne n nm json hget
    have hn : n < wb.sheets.length := by
      by_contra hc
      rw [List.get?_eq_none.mpr (Nat.not_lt.mp hc)] at hget
      simp at hget
    have hget2 : wb.sheets[n]? = some (nm, json) := by
      rw [← List.get?_eq_getElem?]
      exact hget
    have hnames : (sheetNames wb)[n]? = some nm := by
      rw [sheetNames, List.getElem?_map, hget2]
      rfl
    have hmem : nm ∈ sheetNames wb := List.get?_mem (by
      rw [List.get?_eq_getElem?]
      exact hnames)
    have hnm : nm ≠ "" := hne nm hmem
    have hlen : ¬ (sheetNames wb).length ≤ n := by
      simp only [sheetNames, List.length_map]
      omega
    constructor
    · simp [resolveSheet, hlen, hnames, hnm]
    · exact lookup_of_get?_nodup wb.sheets n nm json (by simpa [sheetNames] using hnd) hget
  · intro s hs
    constructor
    · simp [resolveSheet, hs]
    · exact lookup_isSome_of_mem wb.sheets s (by simpa [sheetNames] using hs)

/-- Witness for `extractSheet_error_spec`: selector `5` against a
two-sheet workbook is rejected with "Invalid sheet selection". -/
theorem extractSheet_error_spec_witness :
    extractSheet { sheets := [("Sheet1", []), ("Sheet2", [])] }
      (SheetSelector.index 5) false 1 none =
      Except.error "Invalid sheet selection" :=
  (extractSheet_error_spec { sheets := [("Sheet1", []), ("Sheet2", [])] } 1 none).1
    false 5 (by decide)

/-- Inserting a key not present in the object appends the pair. -/
theorem setEntry_append_of_fresh {β : Type} (l : List (String × β)) (k : String) (v : β)
    (h : ∀ q ∈ l, q.1 ≠ k) : setEntry l k v = l ++ [(k, v)] := by
  induction l with
  | nil => rfl
  | cons p rest ih =>
    obtain ⟨k0, v0⟩ := p
    have hk : ¬ k0 = k := h (k0, v0) (List.mem_cons_self _ _)
    simp only [setEntry, hk, if_false, List.cons_append, List.cons.injEq, true_and]
    exact ih (fun q hq => h q (List.mem_cons_of_mem _ hq))

/-- Folding object insertion over pairs with pairwise-distinct keys,
all fresh for the accumulator, appends them in order. -/
theorem foldl_setEntry_fresh {β : Type} :
    ∀ (ps : List (String × β)) (acc : List (String × β)),
      (ps.map Prod.fst).Nodup →
      (∀ p ∈ ps, ∀ q ∈ acc, q.1 ≠ p.1) →
      ps.foldl (fun a p => setEntry a p.1 p.2) acc = acc ++ ps := by
  intro ps
  induction ps with
  | nil => intro acc _ _; simp
  | cons p ps ih =>
    intro acc hnd hfresh
    obtain ⟨k, v⟩ := p
    simp only [List.map_cons, List.nodup_cons] at hnd
    simp only [List.foldl_cons]
    rw [setEntry_append_of_fresh acc k v
      (fun q hq => hfresh (k, v) (List.mem_cons_self _ _) q hq)]
    rw [ih (acc ++ [(k, v)]) hnd.2 ?_]
    · simp
    · intro q hq r hr
      rcases List.mem_append.mp hr with h | h
      · exact hfresh q (List.mem_cons_of_mem _ hq) r h
      · simp only [List.mem_singleton] at h
        subst h
        intro he
        apply hnd.1
        have he2 : k = q.1 := he
        rw [he2]
        exact List.mem_map_of_mem Prod.fst hq

/-- The keys of the positional zip of columns against a row are the
columns themselves, in order. -/
theorem enumFromMap_keys {β : Type} (f : Nat × String → β) :
    ∀ (l : List String) (n : Nat),
      ((l.enumFrom n).map (fun ic => (ic.2, f ic))).map Prod.fst = l := by
  intro l
  induction l with
  | nil => intro n; rfl
  | cons a l ih =>
    intro n
    simp only [List.enumFrom, List.map_cons]
    rw [ih (n + 1)]

/-- With duplicate-free columns, one projected row is exactly the
positional zip of the columns against the row's cells. -/
theorem projectRow_eq (sanitize : Bool) (columns : List String) (row : List CellValue)
    (hnd : columns.Nodup) :
    projectRow sanitize columns row =
      columns.enum.map (fun ic =>
        (ic.2, if sanitize then sanitizeCellValue (cellOrEmpty row ic.1)
               else cellOrEmpty row ic.1)) := by
  have hkeys : ((columns.enum.map (fun ic =>
      (ic.2, if sanitize then sanitizeCellValue (cellOrEmpty row ic.1)
             else cellOrEmpty row ic.1))).map Prod.fst).Nodup := by
    rw [show columns.enum = columns.enumFrom 0 from rfl, enumFromMap_keys]
    exact hnd
  have h := foldl_setEntry_fresh
    (columns.enum.map (fun ic =>
      (ic.2, if sanitize then sanitizeCellValue (cellOrEmpty row ic.1)
             else cellOrEmpty row ic.1)))
    [] hkeys (by intro p _ q hq; simp at hq)
  rw [List.foldl_map] at h
  simpa [projectRow] using h

/-- C6 counterexample: with the duplicate column list `["a", "a"]` and
the row `["x", "y"]`, the projected row object has a single key `"a"`
holding the second cell — not one key per column position with the
cell at that position, as the claim states for every columns list. -/
theorem projectRow_duplicate_columns_cex :
    projectRow false ["a", "a"] [CellValue.str "x", CellValue.str "y"] =
      [("a", CellValue.str "y")] ∧
    (projectRow false ["a", "a"] [CellValue.str "x", CellValue.str "y"]).length ≠ 2 := by
  exact ⟨by decide, by decide⟩

/-- C6 (amended): for duplicate-free column lists, row projection keeps
exactly the first `min previewCount rows.length` rows, and each output
row is the object whose keys are the column names in column order with
the (optionally sanitized) cell at each column's position as value; a
position absent from the row (or a null cell) becomes the empty string,
and a present non-null cell is passed through. With duplicate column
names, later positions overwrite earlier ones in the row object. -/
theorem projectRows_spec (sanitize : Bool) (columns : List String) (previewCount : Nat)
    (rows : SheetMatrix) (hnd : columns.Nodup) :
    projectRows sanitize columns previewCount rows =
      (rows.take previewCount).map (fun row =>
        columns.enum.map (fun ic =>
          (ic.2, if sanitize then sanitizeCellValue (cellOrEmpty row ic.1)
                 else cellOrEmpty row ic.1))) ∧
    (projectRows sanitize columns previewCount rows).length = min previewCount rows.length ∧
    (∀ (row : List CellValue) (i : Nat), row.length ≤ i →
      cellOrEmpty row i = CellValue.str "") ∧
    (∀ (row : List CellValue) (i : Nat) (h : i < row.length),
      row.get ⟨i, h⟩ ≠ CellValue.null → cellOrEmpty row i = row.get ⟨i, h⟩) := by
  refine ⟨?_, ?_, ?_, ?_⟩
  · exact List.map_congr_left (fun row _ => projectRow_eq sanitize columns row hnd)
  · simp [projectRows, List.length_take]
  · intro row i h
    have h0 : row[i]? = none := by
      rw [← List.get?_eq_getElem?]
      exact List.get?_eq_none.mpr h
    simp [cellOrEmpty, h0]
  · intro row i h hnn
    have h0 : row.get? i = some (row.get ⟨i, h⟩) := List.get?_eq_get h
    rw [cellOrEmpty, h0]
    cases hv : row.get ⟨i, h⟩ with
    | null => exact absurd hv hnn
    | str s => rfl
    | num n => rfl
    | boolean b => rfl

/-- Witness for `projectRows_spec` on the documented example: header
`["Name", "Age", "Email"]` with row `["Bob"]` yields empty strings for
the absent trailing cells. -/
theorem projectRows_spec_witness :
    projectRows false ["Name", "Age", "Email"] 5 [[CellValue.str "Bob"]] =
      [[("Name", CellValue.str "Bob"), ("Age", CellValue.str ""),
        ("Email", CellValue.str "")]] :=
  ((projectRows_spec false ["Name", "Age", "Email"] 5 [[CellValue.str "Bob"]]
    (by decide)).1).trans (by decide)
